import Mathlib

/-!
Verification of the OSv virtual-memory manager (sharded superblock fork).

Shallow embedding of `core/mmu.cc` (the superblock manager, the page-table
permission logic, the page providers, the VMA split and fault paths, the
`tlb_gather` batching, and the `munmap`/`msync`/`madvise`/`mincore` entry
points) as executable Lean definitions, together with theorems settling the
frozen claims about this code.

Machine integers are modelled as `Nat`; the few places where C++ unsigned
wrap-around matters carry an explicit `% 2^32`.  The sequential semantics
models a `compare_exchange` as succeeding exactly when the stored value equals
the expected one.
-/

namespace OsvMmu

/-- Architecture constants.  `page_size` and `huge_page_size` are defined in
the architecture headers (outside this repository); the spec fixes them as 4K
leaf pages and 2 MiB huge pages. -/
def page_size : Nat := 4096

/-- The 2 MiB huge page size used by level-1 leaf PTEs. -/
def huge_page_size : Nat := 2097152

/-- `align_down(x, a)` from `osv/align.hh`: round `x` down to a multiple of
`a`. -/
def alignDown (x a : Nat) : Nat := x / a * a

/-- `align_up(x, a)` from `osv/align.hh`: round `x` up to a multiple of
`a`. -/
def alignUp (x a : Nat) : Nat := alignDown (x + a - 1) a

/-! ## Permissions and access kinds -/

/-- The `perm_read`/`perm_write`/`perm_exec` bitset carried by a VMA and
passed to `mprotect`/`change_perm`. -/
structure Perm where
  r : Bool
  w : Bool
  x : Bool
deriving DecidableEq, Fintype

/-- The three access kinds the fault path distinguishes via
`is_page_fault_insn` / `is_page_fault_write` on the error code. -/
inductive AccessKind where
  | read
  | write
  | insn
deriving DecidableEq, Fintype

/-- Whether access kind `k` is a member of the permission bitset (the claim's
"k ∈ perm"). -/
def permAllows (p : Perm) (k : AccessKind) : Bool :=
  match k with
  | .read => p.r
  | .write => p.w
  | .insn => p.x

/-- `access_fault(vma, error_code)` from mmu.cc: an instruction fetch faults
iff the VMA lacks exec, a write faults iff it lacks write, any other access
faults iff it lacks read. -/
def access_fault (perm : Perm) (k : AccessKind) : Bool :=
  match k with
  | .insn => !perm.x
  | .write => !perm.w
  | .read => !perm.r

/-! ## Leaf PTE state and `change_perm` -/

/-- The bits of a leaf page-table entry that `change_perm` reads and writes:
the valid (present) bit, write bit, exec bit, the `pte_cow` software bit and
the reserved bit used to make a `PROT_NONE` entry fault. -/
structure Pte where
  valid : Bool
  writable : Bool
  executable : Bool
  cow : Bool
  rsvd : Bool
deriving DecidableEq, Fintype

/-- `change_perm(ptep, perm)` from mmu.cc, acting on the stored PTE: a COW
entry has write masked off, then the entry is made valid, its write/exec bits
follow the (masked) permission, and the reserved bit is set exactly when the
masked permission is empty. -/
def change_perm (pte : Pte) (perm : Perm) : Pte :=
  let p := if pte.cow then { perm with w := false } else perm
  { pte with
    valid := true
    writable := p.w
    executable := p.x
    rsvd := p = ⟨false, false, false⟩ }

/-- Modelled from the spec: x86 hardware access check for a leaf PTE, per the
spec's architecture interface and the comment in `change_perm` ("in x86, if
the present bit is off, not only read is disallowed, but also write and
exec"); an entry with the reserved bit set faults on every access. -/
def hw_access_fault (pte : Pte) (k : AccessKind) : Bool :=
  if pte.rsvd then true
  else
    match k with
    | .read => !pte.valid
    | .write => !pte.valid || !pte.writable
    | .insn => !pte.valid || !pte.executable

/-- The permission a populated page effectively carries after
`change_perm(perm)`: COW strips write, and any non-empty permission also
grants read. -/
def effective_perm (cow : Bool) (perm : Perm) : Perm :=
  let p := if cow then { perm with w := false } else perm
  if p = ⟨false, false, false⟩ then p else { p with r := true }

/-- Claim C2, counterexample: `mprotect` to write-only on a populated,
non-COW page leaves the page readable by the hardware — `change_perm` sets
the valid bit whenever any permission is requested, so a read access does not
fault even though read is excluded from the permission, contradicting the
claim. -/
theorem change_perm_write_only_read_does_not_fault :
    hw_access_fault
        (change_perm ⟨true, true, false, false, false⟩ ⟨false, true, false⟩)
        AccessKind.read = false
      ∧ permAllows ⟨false, true, false⟩ AccessKind.read = false := by
  decide

/-- Claim C2, amended: after `change_perm(perm)` a populated byte faults
under access kind `k` iff `k` is excluded from the effective permission,
which strips write on COW entries and then grants read whenever the result is
non-empty (so a write-only or exec-only `mprotect` still leaves the page
readable); an unpopulated byte is checked by `access_fault` against the VMA
permission, faulting iff `k ∉ perm`. -/
theorem change_perm_effective_perm_fault :
    (∀ (pte : Pte) (perm : Perm) (k : AccessKind),
        hw_access_fault (change_perm pte perm) k
          = !permAllows (effective_perm pte.cow perm) k)
      ∧ (∀ (perm : Perm) (k : AccessKind),
        access_fault perm k = !permAllows perm k) := by
  constructor
  · decide
  · decide

/-! ## VMA flags, anonymous page providers (C7) -/

/-- The `mmap_*` flag bitset (mmu-defs): the bits the embedded code
inspects. -/
structure Flags where
  fixed : Bool
  populate : Bool
  shared : Bool
  file : Bool
  small : Bool
  uninitialized : Bool
deriving DecidableEq

/-- The two anonymous page providers of mmu.cc:
`uninitialized_anonymous_page_provider` and
`initialized_anonymous_page_provider`. -/
inductive ProviderKind where
  | noinit
  | init
deriving DecidableEq

/-- The provider `anon_vma`'s constructor attaches:
`page_allocator_noinitp` when `mmap_uninitialized` is set, else
`page_allocator_initp`. -/
def anon_vma_provider (flags : Flags) : ProviderKind :=
  if flags.uninitialized then .noinit else .init

/-- The `fill` hook of the two anonymous providers: the initialized provider
runs `memset(addr, 0, size)` over the freshly allocated block, the
uninitialized one returns it as is.  A page is a list of byte values whose
length is the page size being filled. -/
def provider_fill (p : ProviderKind) (page : List Nat) : List Nat :=
  match p with
  | .init => List.replicate page.length 0
  | .noinit => page

/-- `uninitialized_anonymous_page_provider::map` / `set_pte`: allocate, run
`fill`, then install via a PTE compare-exchange against the empty entry; a
failed allocation throws and a lost compare-exchange frees the page and
installs nothing.  The result is the page content actually installed behind
the PTE, or `none` when nothing was installed. -/
def provider_map (p : ProviderKind) (allocated : Option (List Nat))
    (casSucceeds : Bool) : Option (List Nat) :=
  match allocated with
  | none => none
  | some pg =>
      let filled := provider_fill p pg
      if casSucceeds then some filled else none

/-- Claim C7: memory mapped by `map_anon` without the uninitialized flag
reads as zero when populated — `anon_vma` attaches the initialized provider
whenever `mmap_uninitialized` is absent, and that provider zero-fills the
whole allocated page (4K or huge) before its PTE is installed, so any
installed page content is all zeros. -/
theorem anon_vma_initialized_provider_zero_fill
    (flags : Flags) (pg installed : List Nat) (cas : Bool)
    (huninit : flags.uninitialized = false)
    (hmap : provider_map (anon_vma_provider flags) (some pg) cas
      = some installed) :
    anon_vma_provider flags = ProviderKind.init ∧ ∀ b ∈ installed, b = 0 := by
  have hp : anon_vma_provider flags = ProviderKind.init := by
    simp [anon_vma_provider, huninit]
  refine ⟨hp, ?_⟩
  rw [hp] at hmap
  by_cases hc : cas = true
  · simp [provider_map, provider_fill, hc] at hmap
    intro b hb
    rw [← hmap] at hb
    exact List.eq_of_mem_replicate hb
  · simp [provider_map, provider_fill, hc] at hmap

/-- Claim C7, witness: populating a two-byte dirty page through the
initialized provider installs the zero page. -/
theorem anon_vma_initialized_provider_zero_fill_witness :
    anon_vma_provider ⟨false, false, false, false, false, false⟩
        = ProviderKind.init
      ∧ ∀ b ∈ ([0, 0] : List Nat), b = 0 :=
  anon_vma_initialized_provider_zero_fill
    ⟨false, false, false, false, false, false⟩ [5, 7] [0, 0] true rfl (by decide)

/-! ## VMAs, the file fault path (C4) and split (C8) -/

/-- An `anon_vma` as visible to `split` and the fault path: its page-aligned
range, permission bitset, and flags. -/
structure AnonVma where
  vstart : Nat
  vend : Nat
  perm : Perm
  flags : Flags
deriving DecidableEq

/-- A `file_vma`: the base VMA fields plus the backing file's offset and the
file size (the result of `::size(_file)` used by `fault`). -/
structure FileVma where
  vstart : Nat
  vend : Nat
  perm : Perm
  flags : Flags
  foffset : Nat
  fsize : Nat
deriving DecidableEq

/-- The `vma` base-class constructor: the stored range is
`[align_down(start), align_up(end))`. -/
def mkAnonVma (s e : Nat) (perm : Perm) (flags : Flags) : AnonVma :=
  { vstart := alignDown s page_size
    vend := alignUp e page_size
    perm := perm
    flags := flags }

/-- The `file_vma` constructor: besides the base-class page alignment of the
range, it passes `flags | mmap_small` to `vma`, so every file-backed VMA
carries the small flag. -/
def mkFileVma (s e : Nat) (perm : Perm) (flags : Flags) (foffset fsize : Nat) :
    FileVma :=
  { vstart := alignDown s page_size
    vend := alignUp e page_size
    perm := perm
    flags := { flags with small := true }
    foffset := foffset
    fsize := fsize }

/-- `vma::set(start, end)`: re-aligns both edges. -/
def vmaSet (v : AnonVma) (s e : Nat) : AnonVma :=
  { v with vstart := alignDown s page_size, vend := alignUp e page_size }

/-- `file_vma::offset(addr)`. -/
def file_vma_offset (v : FileVma) (addr : Nat) : Nat :=
  v.foffset + (addr - v.vstart)

/-- Outcome of a `vma::fault`/`file_vma::fault` dispatch: either `SIGBUS`, or
populating `size` bytes starting at `addr`. -/
inductive FaultOutcome where
  | sigbus
  | populate (addr size : Nat)
deriving DecidableEq

/-- `file_vma::fault(addr, ef)` from mmu.cc: SIGBUS past the file size; else
a huge page when the VMA is not small, `addr` lies in the huge-page-aligned
interior and the file extends past the huge page end; else one 4K page. -/
def file_vma_fault (v : FileVma) (addr : Nat) : FaultOutcome :=
  let hpStart := alignUp v.vstart huge_page_size
  let hpEnd := alignDown v.vend huge_page_size
  if v.fsize ≤ file_vma_offset v addr then .sigbus
  else if !v.flags.small && (decide (hpStart ≤ addr) && decide (addr < hpEnd))
      && decide (file_vma_offset v hpEnd < v.fsize) then
    .populate (alignDown addr huge_page_size) huge_page_size
  else
    .populate addr page_size

/-- Claim C4, counterexample: a file-backed VMA created without the small
flag, faulting at a huge-page-aligned interior address with the file
extending far past the huge page end, still populates one 4K page — the
`file_vma` constructor forces `mmap_small` onto every file VMA, so the
huge-page branch of `file_vma::fault` is unreachable. -/
theorem file_vma_fault_never_huge_counterexample :
    file_vma_fault
        (mkFileVma 0 (4 * huge_page_size) ⟨true, true, false⟩
          ⟨false, false, false, true, false, false⟩ 0 (100 * huge_page_size))
        huge_page_size
      = FaultOutcome.populate huge_page_size page_size
      ∧ (⟨false, false, false, true, false, false⟩ : Flags).small = false := by
  constructor
  · rfl
  · rfl

/-- Claim C4, amended: because the `file_vma` constructor ORs `mmap_small`
into the flags, every fault on a constructor-built file VMA either delivers
SIGBUS (access past the file size) or populates exactly one 4K page at the
faulting address — a huge page is never populated on the file path. -/
theorem file_vma_fault_sigbus_or_one_small_page
    (s e : Nat) (perm : Perm) (flags : Flags) (foffset fsize addr : Nat) :
    file_vma_fault (mkFileVma s e perm flags foffset fsize) addr
        = FaultOutcome.sigbus
      ∨ file_vma_fault (mkFileVma s e perm flags foffset fsize) addr
        = FaultOutcome.populate addr page_size := by
  unfold file_vma_fault mkFileVma
  by_cases h : fsize ≤ foffset + (addr - alignDown s page_size)
  · left
    simp [file_vma_offset, h]
  · right
    simp [file_vma_offset, h]

/-- `anon_vma::split(edge)`: no-op unless `edge` is strictly inside; else
truncate self via `set(start, edge)` and build a new `anon_vma` over
`(edge, end)` with the same permission and flags (both constructors re-align
their arguments).  Returns the updated self and the VMA inserted, if any. -/
def anon_vma_split (v : AnonVma) (edge : Nat) : AnonVma × Option AnonVma :=
  if edge ≤ v.vstart ∨ v.vend ≤ edge then (v, none)
  else (vmaSet v v.vstart edge, some (mkAnonVma edge v.vend v.perm v.flags))

/-- `file_vma::split(edge)`: no-op unless `edge` is strictly inside; else the
new VMA over `(edge, end)` is produced by the file's `mmap` factory (which
builds a `file_vma` on the same file) at file offset `offset(edge)`, and self
is truncated via `set(start, edge)`. -/
def file_vma_split (v : FileVma) (edge : Nat) : FileVma × Option FileVma :=
  if edge ≤ v.vstart ∨ v.vend ≤ edge then (v, none)
  else
    ({ v with
        vstart := alignDown v.vstart page_size
        vend := alignUp edge page_size },
      some (mkFileVma edge v.vend v.perm v.flags (file_vma_offset v edge)
        v.fsize))

/-- Claim C8, counterexample: splitting the two-page anon VMA `[0, 0x2000)`
at the unaligned interior edge `0x1800` does not truncate self to
`[0, 0x1800)` — `vma::set` aligns the edge up, leaving self as `[0, 0x2000)`,
and the inserted VMA starts at `align_down(0x1800) = 0x1000`, not at the
edge. -/
theorem anon_vma_split_unaligned_edge_counterexample :
    anon_vma_split ⟨0, 8192, ⟨true, true, false⟩,
        ⟨false, false, false, false, false, false⟩⟩ 6144
      = (⟨0, 8192, ⟨true, true, false⟩,
            ⟨false, false, false, false, false, false⟩⟩,
          some ⟨4096, 8192, ⟨true, true, false⟩,
            ⟨false, false, false, false, false, false⟩⟩)
      ∧ 0 < 6144 ∧ 6144 < 8192 := by
  refine ⟨?_, by decide, by decide⟩
  decide

/-- A multiple of the page size is left unchanged by `align_down`. -/
theorem alignDown_self (x : Nat) (h : x % page_size = 0) :
    alignDown x page_size = x := by
  unfold alignDown
  exact Nat.div_mul_cancel (Nat.dvd_of_mod_eq_zero h)

/-- A multiple of the page size is left unchanged by `align_up`. -/
theorem alignUp_self (x : Nat) (h : x % page_size = 0) :
    alignUp x page_size = x := by
  obtain ⟨k, hk⟩ := Nat.dvd_of_mod_eq_zero h
  subst hk
  unfold alignUp alignDown page_size
  omega

/-- Claim C8, amended: `split(edge)` with `edge ≤ start` or `edge ≥ end` is a
no-op for both anon and file VMAs; for a page-aligned edge strictly inside a
page-aligned VMA it truncates self to `[start, edge)` and inserts a new VMA
of the same variant over `[edge, end)` — produced for a file VMA by the
file's `mmap` factory at file offset `offset(edge)` (which re-ORs the small
flag), and for an anon VMA inheriting flags and permission.  (For an
unaligned interior edge the constructor and `vma::set` re-align the pieces,
so the truncation does not stop at `edge`.) -/
theorem vma_split_aligned (v : AnonVma) (fv : FileVma) (edge : Nat) :
    (edge ≤ v.vstart ∨ v.vend ≤ edge → anon_vma_split v edge = (v, none))
    ∧ (edge ≤ fv.vstart ∨ fv.vend ≤ edge → file_vma_split fv edge = (fv, none))
    ∧ (v.vstart % page_size = 0 → v.vend % page_size = 0
        → edge % page_size = 0 → v.vstart < edge → edge < v.vend →
        anon_vma_split v edge
          = ({ v with vend := edge }, some { v with vstart := edge }))
    ∧ (fv.vstart % page_size = 0 → fv.vend % page_size = 0
        → edge % page_size = 0 → fv.vstart < edge → edge < fv.vend →
        file_vma_split fv edge
          = ({ fv with vend := edge },
              some { fv with
                vstart := edge
                flags := { fv.flags with small := true }
                foffset := fv.foffset + (edge - fv.vstart) })) := by
  refine ⟨?_, ?_, ?_, ?_⟩
  · intro h
    unfold anon_vma_split
    simp only [if_pos h]
  · intro h
    unfold file_vma_split
    simp only [if_pos h]
  · intro hs he hedge h1 h2
    have hno : ¬(edge ≤ v.vstart ∨ v.vend ≤ edge) := by omega
    unfold anon_vma_split vmaSet mkAnonVma
    rw [if_neg hno, alignDown_self _ hs, alignUp_self _ hedge,
      alignDown_self _ hedge, alignUp_self _ he]
  · intro hs he hedge h1 h2
    have hno : ¬(edge ≤ fv.vstart ∨ fv.vend ≤ edge) := by omega
    unfold file_vma_split mkFileVma file_vma_offset
    rw [if_neg hno, alignDown_self _ hs, alignUp_self _ hedge,
      alignDown_self _ hedge, alignUp_self _ he]

/-- Claim C8, witness: the no-op cases at the exact edges and a proper split
of `[0, 0x2000)` at the aligned interior edge `0x1000`, for an anon VMA and a
file VMA (file offset `0x100000`, file size `0x300000`). -/
theorem vma_split_aligned_witness :
    anon_vma_split ⟨0, 8192, ⟨true, true, false⟩,
        ⟨false, false, false, false, false, false⟩⟩ 8192
      = (⟨0, 8192, ⟨true, true, false⟩,
          ⟨false, false, false, false, false, false⟩⟩, none)
    ∧ file_vma_split ⟨0, 8192, ⟨true, false, false⟩,
        ⟨false, false, true, true, true, false⟩, 1048576, 3145728⟩ 0
      = (⟨0, 8192, ⟨true, false, false⟩,
          ⟨false, false, true, true, true, false⟩, 1048576, 3145728⟩, none)
    ∧ anon_vma_split ⟨0, 8192, ⟨true, true, false⟩,
        ⟨false, false, false, false, false, false⟩⟩ 4096
      = (⟨0, 4096, ⟨true, true, false⟩,
          ⟨false, false, false, false, false, false⟩⟩,
        some ⟨4096, 8192, ⟨true, true, false⟩,
          ⟨false, false, false, false, false, false⟩⟩)
    ∧ file_vma_split ⟨0, 8192, ⟨true, false, false⟩,
        ⟨false, false, true, true, true, false⟩, 1048576, 3145728⟩ 4096
      = (⟨0, 4096, ⟨true, false, false⟩,
          ⟨false, false, true, true, true, false⟩, 1048576, 3145728⟩,
        some ⟨4096, 8192, ⟨true, false, false⟩,
          ⟨false, false, true, true, true, false⟩, 1052672, 3145728⟩) :=
  ⟨(vma_split_aligned ⟨0, 8192, ⟨true, true, false⟩,
      ⟨false, false, false, false, false, false⟩⟩
      ⟨0, 8192, ⟨true, false, false⟩, ⟨false, false, true, true, true, false⟩,
        1048576, 3145728⟩ 8192).1 (by decide),
   (vma_split_aligned ⟨0, 8192, ⟨true, true, false⟩,
      ⟨false, false, false, false, false, false⟩⟩
      ⟨0, 8192, ⟨true, false, false⟩, ⟨false, false, true, true, true, false⟩,
        1048576, 3145728⟩ 0).2.1 (by decide),
   (vma_split_aligned ⟨0, 8192, ⟨true, true, false⟩,
      ⟨false, false, false, false, false, false⟩⟩
      ⟨0, 8192, ⟨true, false, false⟩, ⟨false, false, true, true, true, false⟩,
        1048576, 3145728⟩ 4096).2.2.1 (by decide) (by decide) (by decide)
      (by decide) (by decide),
   (vma_split_aligned ⟨0, 8192, ⟨true, true, false⟩,
      ⟨false, false, false, false, false, false⟩⟩
      ⟨0, 8192, ⟨true, false, false⟩, ⟨false, false, true, true, true, false⟩,
        1048576, 3145728⟩ 4096).2.2.2 (by decide) (by decide) (by decide)
      (by decide) (by decide)⟩

/-! ## Superblock claiming (C1)

The `superblocks` array of atomic bytes is a `List Nat`; a slot holds the
owning CPU id or `FREE = 255`.  The sequential semantics models
`compare_exchange` as succeeding exactly when the stored value equals the
expected one (an out-of-range index reads as `0`, so such a CAS fails and
changes nothing). -/

/-- The `FREE` marker (`free_idx` in `allocate_superblocks`). -/
def FREE : Nat := 255

/-- One compare-exchange on slot `i`: succeeds iff the stored value is
`expected`, in which case the slot becomes `desired`. -/
def casSlot (st : List Nat) (i expected desired : Nat) : Bool × List Nat :=
  if st.getD i 0 = expected then (true, st.set i desired) else (false, st)

/-- Unsigned 32-bit subtraction, for the `unsigned` arithmetic in
`allocate_superblocks`'s failure path. -/
def u32sub (a b : Nat) : Nat := (a + (2 ^ 32 - b % 2 ^ 32)) % 2 ^ 32

/-- `release_superblocks(start, n)` from mmu.cc: for each slot in
`[start, start + n)` compare-exchange the caller's CPU id back to `FREE`.
`cpuid` is a local passed to `compare_exchange_weak` by reference, so a
failed exchange overwrites it with the observed value, which is then used as
the expected value of the following iterations — modelled by threading the
expected value through the fold. -/
def release_superblocks (st : List Nat) (cpuid start n : Nat) : List Nat :=
  ((List.range n).foldl
    (fun acc j =>
      let expected := acc.1
      let cur := acc.2
      if cur.getD (start + j) 0 = expected then
        (expected, cur.set (start + j) FREE)
      else (cur.getD (start + j) 0, cur))
    (cpuid, st)).2

/-- The scan loop of `allocate_superblocks(n)`: walk the indices with run
counter `k`; a non-free slot resets the run; when the run reaches `n` the
inner reservation loop compare-exchanges slot `i - n + 1` to the CPU id and —
because of its `else break` — immediately returns `i - n + 1` on success,
leaving the remaining `n - 1` slots untouched; a lost CAS calls
`release_superblocks(i - n, j - i - n)` (unsigned arithmetic) and rescans via
`retry`.  Result `some none` is the `ENOMEM` throw at scan end. -/
def allocScan (cpu n : Nat) (retry : List Nat → Option (Option (Nat × List Nat))) :
    List Nat → Nat → List Nat → Option (Option (Nat × List Nat))
  | [], _, _ => some none
  | i :: rest, k, st =>
    if st.getD i 0 ≠ FREE then allocScan cpu n retry rest 0 st
    else if k + 1 = n then
      let j := i + 1 - n
      match casSlot st j FREE cpu with
      | (true, st1) => some (some (i + 1 - n, st1))
      | (false, st1) =>
          retry (release_superblocks st1 cpu (u32sub i n) (u32sub (u32sub j i) n))
    else allocScan cpu n retry rest (k + 1) st

/-- `allocate_superblocks(n)` over `sbLen` slots, with `fuel` bounding the
retry recursion (`none` models divergence; in the sequential semantics the
retry path is unreachable because a CAS against a just-loaded `FREE` slot
succeeds).  `some none` is the `ENOMEM` throw; `some (some (idx, st'))`
returns the first index of the claimed run together with the final array. -/
def allocate_superblocks (fuel : Nat) (st : List Nat) (cpu n sbLen : Nat) :
    Option (Option (Nat × List Nat)) :=
  match fuel with
  | 0 => none
  | f + 1 =>
      allocScan cpu n (fun st1 => allocate_superblocks f st1 cpu n sbLen)
        (List.range sbLen) 0 st

/-- Claim C1: with two superblocks, both `FREE`, and no contention (every CAS
succeeds), `allocate_superblocks(2)` on CPU 0 returns run start 0 but leaves
slot 1 still `FREE` — the reservation loop's `else break` exits after the
first successful CAS instead of claiming each of the `n` slots, contradicting
the claim (and the spec separately notes the losing-CAS path releases a
bogus `release_superblocks(i - n, j - i - n)` range rather than exactly the
claimed prefix). -/
theorem allocate_superblocks_claims_only_first_slot :
    allocate_superblocks 1 [255, 255] 0 2 2 = some (some (0, [0, 255]))
      ∧ [0, 255].getD 1 0 = FREE := by
  constructor
  · rfl
  · rfl

/-! ## The free-range map and `allocate_range` (C3)

A shard's `std::map<uintptr_t, u64> free_ranges` is a sorted association
list of `(base, length)` pairs. -/

/-- Whether address `a` is covered by some free interval of the map. -/
def fr_covers (fr : List (Nat × Nat)) (a : Nat) : Bool :=
  fr.any fun p => decide (p.1 ≤ a) && decide (a < p.1 + p.2)

/-- `prev_range(addr, fr)` from mmu.cc: `--upper_bound(addr)`, i.e. the entry
with the greatest key `≤ addr`, if any (for a key-sorted list this is the
last entry whose key is `≤ addr`). -/
def prev_range (fr : List (Nat × Nat)) (addr : Nat) : Option (Nat × Nat) :=
  (fr.filter fun p => p.1 ≤ addr).getLast?

/-- `std::map::erase` of key `k`. -/
def mapErase (fr : List (Nat × Nat)) (k : Nat) : List (Nat × Nat) :=
  fr.filter fun p => p.1 ≠ k

/-- `std::map::insert {k, v}`: no effect when the key is present; otherwise
insert in key order. -/
def mapInsert (fr : List (Nat × Nat)) (k v : Nat) : List (Nat × Nat) :=
  if fr.any (fun p => p.1 = k) then fr
  else (fr.filter fun p => p.1 < k) ++ (k, v) :: (fr.filter fun p => k < p.1)

/-- `std::map::operator[] = v`: overwrite the value at `k`, inserting the key
if absent. -/
def mapSet (fr : List (Nat × Nat)) (k v : Nat) : List (Nat × Nat) :=
  if fr.any (fun p => p.1 = k) then
    fr.map fun p => if p.1 = k then (k, v) else p
  else (fr.filter fun p => p.1 < k) ++ (k, v) :: (fr.filter fun p => k < p.1)

/-- `superblock_manager::allocate_range(addr, size)` on a shard's free-range
map; `none` models a failed assertion (`prev_range` empty, or the found
interval shorter than `size`).  Head allocation erases the interval and
reinserts the tail; middle/end allocation shrinks the left part in place and,
when a tail remains, inserts it — at key `addr + offset + size`, exactly as
the source does. -/
def allocate_range (fr : List (Nat × Nat)) (addr size : Nat) :
    Option (List (Nat × Nat)) :=
  match prev_range fr addr with
  | none => none
  | some it =>
    if it.2 < size then none
    else if it.1 = addr then
      let s := it.2
      let fr1 := mapErase fr addr
      some (if size < s then mapInsert fr1 (addr + size) (s - size) else fr1)
    else
      let off := addr - it.1
      let s := it.2 - off
      let fr1 := mapSet fr it.1 off
      some (if size < s then mapInsert fr1 (addr + off + size) (s - size) else fr1)

/-- Claim C3: allocating `[10, 30)` out of the single free interval
`[0, 100)` must leave a map covering exactly `[0, 10)` and `[30, 100)`, but
the source inserts the tail at `addr + offset + size = 40`, producing
`{0 ↦ 10, 40 ↦ 70}`: address 35 (inside the claimed `[30, 100)`) is no longer
covered while address 105 (outside the original interval) now is. -/
theorem allocate_range_inserts_tail_at_wrong_key :
    allocate_range [(0, 100)] 10 20 = some [(0, 10), (40, 70)]
      ∧ fr_covers [(0, 10), (40, 70)] 35 = false
      ∧ fr_covers [(0, 10), (40, 70)] 105 = true := by
  refine ⟨?_, ?_, ?_⟩
  · rfl
  · rfl
  · rfl

/-! ## Owner lookup and `generate_owner_list` (C5)

`superblock_area_base`, `main_mem_area_base` and `superblock_size` live in
`osv/mmu-defs.hh` (outside the provided sources); they are parameters here,
constrained as the spec fixes them (`base < main`, power-of-two-sized
superblocks dividing the window).  `nWorkers` is `sched::max_cpus + 1`. -/

/-- `superblock_manager::owner(addr)`: outside
`[superblock_area_base, main_mem_area_base)` the shared worker
`workers.size() - 1` owns the address, inside it is the stored owner byte of
the containing superblock. -/
def owner (sbBase mainBase sbSize nWorkers : Nat) (st : List Nat)
    (addr : Nat) : Nat :=
  if addr < sbBase ∨ mainBase ≤ addr then nWorkers - 1
  else st.getD ((addr - sbBase) / sbSize) 0

/-- The loop of `generate_owner_list`, carrying the result in reverse.
Each pass computes the owner at `start + i`, the next superblock barrier
`min(align_up(start + i + 1, superblock_size), start + size)` and the actual
segment length `size_in_superblock`, but records the tuple length as
`min(superblock_size, size - i)` — merging into the previous tuple when the
owner repeats (an empty result vector there indexes `res[-1]`, modelled as
`none`), else pushing a fresh tuple.  `fuel` bounds the iteration (`none` on
exhaustion models divergence; with a positive superblock size `size` passes
suffice). -/
def gol_loop (sbBase mainBase sbSize nWorkers : Nat) (st : List Nat)
    (start size : Nat) :
    Nat → Nat → Nat → List (Nat × Nat × Nat) → Option (List (Nat × Nat × Nat))
  | 0, _, _, _ => none
  | f + 1, i, prevOwner, resRev =>
    if i < size then
      let cur := owner sbBase mainBase sbSize nWorkers st (start + i)
      let nb := min (alignUp (start + i + 1) sbSize) (start + size)
      let sis := nb - (start + i)
      match resRev, decide (prevOwner = cur) with
      | [], true => none
      | p :: rest, true =>
          gol_loop sbBase mainBase sbSize nWorkers st start size
            f (i + sis) cur
            ((p.1, p.2.1 + min sbSize (size - i), cur) :: rest)
      | _, false =>
          gol_loop sbBase mainBase sbSize nWorkers st start size
            f (i + sis) cur
            ((start + i, min sbSize (size - i), cur) :: resRev)
    else some resRev

/-- `superblock_manager::generate_owner_list(start, size)`: a range entirely
outside the superblock area is one tuple owned by the shared worker;
otherwise the loop above, result in source order. -/
def generate_owner_list (sbBase mainBase sbSize nWorkers : Nat)
    (st : List Nat) (start size : Nat) : Option (List (Nat × Nat × Nat)) :=
  if start + size < sbBase ∨ mainBase ≤ start then
    some [(start, size, owner sbBase mainBase sbSize nWorkers st start)]
  else
    (gol_loop sbBase mainBase sbSize nWorkers st start size (size + 1) 0
      FREE []).map List.reverse

/-- Contiguity from the claim's wording: each tuple begins where the previous
one ends, the first beginning at `from`. -/
def spec_contiguous_from (a : Nat) : List (Nat × Nat × Nat) → Bool
  | [] => true
  | (s, len, _) :: rest => decide (s = a) && spec_contiguous_from (s + len) rest

/-- Claim C5: with superblocks of size 8 based at 8 and owner bytes
`[3, 5, 5, 5]`, the range `[12, 20)` crosses the superblock barrier at 16 and
must decompose as `(12, 4, 3), (16, 4, 5)`; the code instead records the
first tuple's length as `min(superblock_size, size) = 8` (ignoring the
`size_in_superblock` it just computed), yielding tuples that are not
contiguous, whose lengths sum to 12 ≠ 8, and whose first tuple covers
addresses 16–19 owned by worker 5, not 3. -/
theorem generate_owner_list_overlong_first_tuple :
    generate_owner_list 8 40 8 65 [3, 5, 5, 5] 12 8
        = some [(12, 8, 3), (16, 4, 5)]
      ∧ spec_contiguous_from 12 [(12, 8, 3), (16, 4, 5)] = false
      ∧ owner 8 40 8 65 [3, 5, 5, 5] 16 = 5 := by
  refine ⟨?_, ?_, ?_⟩
  · rfl
  · rfl
  · rfl

/-! ## VMA registry lookups and `ismapped` (C6, C10)

A shard's VMA registry is the key-sorted list of `(start, end)` ranges,
including the zero-size sentinels at `lower_vma_limit` and `upper_vma_limit`
(the sentinels guarantee the C++ iterator arithmetic below never walks off
the container). -/

/-- Whether address `a` lies inside some VMA of the registry. -/
def vma_covers (l : List (Nat × Nat)) (a : Nat) : Bool :=
  l.any fun p => decide (p.1 ≤ a) && decide (a < p.2)

/-- `lower_bound(k)` on the key-sorted registry, as the index of the first
VMA whose start is `≥ k` (the container's length when there is none). -/
def lower_bound_idx (l : List (Nat × Nat)) (k : Nat) : Nat :=
  (List.findIdx? (fun p => decide (k ≤ p.1)) l).getD l.length

/-- The start iterator of `find_intersecting_vmas`: `lower_bound(r.start)`,
stepped back one when that VMA starts after `r.start` and the previous VMA
ends past `r.start` (the sentinels keep the C++ `std::prev` in range). -/
def fiv_start_idx (l : List (Nat × Nat)) (rs : Nat) : Nat :=
  let i0 := lower_bound_idx l rs
  if rs < (l.getD i0 (0, 0)).1 ∧ rs < (l.getD (i0 - 1) (0, 0)).2 then i0 - 1
  else i0

/-- `superblock_manager::find_intersecting_vmas(r)`: empty for an empty
range; empty when the chosen start VMA begins at or past `r.end`; else the
slice of the registry from the start iterator up to `lower_bound(r.end)`. -/
def find_intersecting_vmas (l : List (Nat × Nat)) (rs re : Nat) :
    List (Nat × Nat) :=
  if re ≤ rs then []
  else if re ≤ (l.getD (fiv_start_idx l rs) (0, 0)).1 then []
  else (l.drop (fiv_start_idx l rs)).take
    (lower_bound_idx l re - fiv_start_idx l rs)

/-- The walk inside `ismapped`: fail on the first VMA starting past the
cursor, succeed once a VMA reaches `end`, else continue from that VMA's
end. -/
def ismappedLoop : List (Nat × Nat) → Nat → Nat → Bool
  | [], _, _ => false
  | p :: rest, cur, endd =>
    if cur < p.1 then false
    else if endd ≤ p.2 then true
    else ismappedLoop rest p.2 endd

/-- `ismapped(addr, size)` from mmu.cc: walk the intersecting VMAs of
`[addr, addr + size)` checking they chain without a gap. -/
def ismapped (l : List (Nat × Nat)) (start size : Nat) : Bool :=
  ismappedLoop (find_intersecting_vmas l start (start + size)) start
    (start + size)

/-- When the `ismapped` walk succeeds, every address from the cursor to the
end is inside one of the walked VMAs. -/
theorem ismappedLoop_covers (l : List (Nat × Nat)) :
    ∀ cur endd, ismappedLoop l cur endd = true →
      ∀ a, cur ≤ a → a < endd → ∃ p ∈ l, p.1 ≤ a ∧ a < p.2 := by
  induction l with
  | nil => intro cur endd h; simp [ismappedLoop] at h
  | cons p rest ih =>
      intro cur endd h a ha1 ha2
      unfold ismappedLoop at h
      by_cases h1 : cur < p.1
      · simp [h1] at h
      · rw [if_neg h1] at h
        by_cases h2 : endd ≤ p.2
        · exact ⟨p, List.mem_cons_self p rest, by omega, by omega⟩
        · rw [if_neg h2] at h
          by_cases h3 : a < p.2
          · exact ⟨p, List.mem_cons_self p rest, by omega, h3⟩
          · obtain ⟨q, hq, hq1, hq2⟩ := ih p.2 endd h a (by omega) ha2
            exact ⟨q, List.mem_cons_of_mem p hq, hq1, hq2⟩

/-- The slice returned by `find_intersecting_vmas` only contains VMAs of the
registry. -/
theorem find_intersecting_vmas_subset (l : List (Nat × Nat)) (rs re : Nat) :
    ∀ p ∈ find_intersecting_vmas l rs re, p ∈ l := by
  intro p hp
  unfold find_intersecting_vmas at hp
  split at hp
  · simp at hp
  · split at hp
    · simp at hp
    · exact List.drop_subset _ l (List.take_subset _ _ hp)

/-- If `ismapped(addr, size)` holds then every byte of `[addr, addr + size)`
is covered by a VMA of the registry. -/
theorem ismapped_covers (l : List (Nat × Nat)) (start size : Nat)
    (h : ismapped l start size = true) :
    ∀ a, start ≤ a → a < start + size → vma_covers l a = true := by
  intro a ha1 ha2
  obtain ⟨p, hp, hp1, hp2⟩ :=
    ismappedLoop_covers (find_intersecting_vmas l start (start + size))
      start (start + size) h a ha1 ha2
  have hpl := find_intersecting_vmas_subset l start (start + size) p hp
  unfold vma_covers
  rw [List.any_eq_true]
  exact ⟨p, hpl, by simp [hp1, hp2]⟩

/-! ## `munmap`, `msync`, `madvise` gap handling (C6) -/

/-- The errno values these entry points produce. -/
inductive Errno where
  | einval
  | enomem
deriving DecidableEq

/-- The state-changing phases the entry points would run after their
`ismapped` guard: `munmap` runs `sync` then `unmap`/`evacuate`;
`madvise(dontneed)` runs `depopulate`; `madvise(nohugepage)` runs the
`splithugepages` walk. -/
inductive MmuAction where
  | sync
  | unmap
  | depopulate
  | nohuge
deriving DecidableEq

/-- The `madvise` advice values mmu.cc distinguishes. -/
inductive Advice where
  | dontneed
  | nohugepage
  | other
deriving DecidableEq

/-- `munmap(addr, length)` from mmu.cc: align the length up, fail with
`EINVAL` when the range is not entirely mapped, else run `sync` then
`unmap`. -/
def munmapF (l : List (Nat × Nat)) (addr len : Nat) :
    Option Errno × List MmuAction :=
  let len1 := alignUp len page_size
  if ismapped l addr len1 then (none, [.sync, .unmap])
  else (some .einval, [])

/-- `msync(addr, length, flags)` from mmu.cc: fail with `ENOMEM` when the
range is not entirely mapped, else run `sync`. -/
def msyncF (l : List (Nat × Nat)) (addr len : Nat) :
    Option Errno × List MmuAction :=
  if ismapped l addr len then (none, [.sync])
  else (some .enomem, [])

/-- `advise(addr, size, advice)` from mmu.cc: fail with `ENOMEM` when the
range is not entirely mapped; else depopulate for `dontneed`, split huge
pages for `nohugepage`, `EINVAL` otherwise. -/
def madviseF (l : List (Nat × Nat)) (addr size : Nat) (adv : Advice) :
    Option Errno × List MmuAction :=
  if ismapped l addr size then
    match adv with
    | .dontneed => (none, [.depopulate])
    | .nohugepage => (none, [.nohuge])
    | .other => (some .einval, [])
  else (some .enomem, [])

/-- Claim C6: when the checked range contains a byte covered by no VMA
(`[addr, addr + align_up(length))` for `munmap`, the requested
`[addr, addr + length)` for `msync`/`madvise`), `munmap` returns `EINVAL`
and `msync`/`madvise` return `ENOMEM`, in each case before running any
sync, unmap or depopulate phase (the action list stays empty). -/
theorem munmap_msync_madvise_reject_gap (l : List (Nat × Nat))
    (addr len : Nat) :
    ((∃ a, addr ≤ a ∧ a < addr + alignUp len page_size
        ∧ vma_covers l a = false) →
      munmapF l addr len = (some .einval, []))
    ∧ ((∃ a, addr ≤ a ∧ a < addr + len ∧ vma_covers l a = false) →
      msyncF l addr len = (some .enomem, [])
        ∧ madviseF l addr len .dontneed = (some .enomem, [])
        ∧ madviseF l addr len .nohugepage = (some .enomem, [])) := by
  constructor
  · rintro ⟨a, ha1, ha2, ha3⟩
    have hm : ismapped l addr (alignUp len page_size) = false := by
      by_contra hc
      rw [Bool.not_eq_false] at hc
      have hcov := ismapped_covers l addr (alignUp len page_size) hc a ha1 ha2
      rw [ha3] at hcov
      simp at hcov
    unfold munmapF
    simp [hm]
  · rintro ⟨a, ha1, ha2, ha3⟩
    have hm : ismapped l addr len = false := by
      by_contra hc
      rw [Bool.not_eq_false] at hc
      have hcov := ismapped_covers l addr len hc a ha1 ha2
      rw [ha3] at hcov
      simp at hcov
    refine ⟨?_, ?_, ?_⟩
    · unfold msyncF; simp [hm]
    · unfold madviseF; simp [hm]
    · unfold madviseF; simp [hm]

/-- Claim C6, witness: a registry holding the sentinels and one VMA
`[0x1000, 0x2000)` has a gap at address 0, so `munmap`, `msync` and both
`madvise` advices on `[0, 0x1000)` all reject it without doing anything. -/
theorem munmap_msync_madvise_reject_gap_witness :
    munmapF [(0, 0), (4096, 8192), (70368744177664, 70368744177664)] 0 4096
        = (some .einval, [])
      ∧ msyncF [(0, 0), (4096, 8192), (70368744177664, 70368744177664)] 0 4096
        = (some .enomem, [])
      ∧ madviseF [(0, 0), (4096, 8192), (70368744177664, 70368744177664)]
          0 4096 .dontneed = (some .enomem, [])
      ∧ madviseF [(0, 0), (4096, 8192), (70368744177664, 70368744177664)]
          0 4096 .nohugepage = (some .enomem, []) :=
  ⟨(munmap_msync_madvise_reject_gap
      [(0, 0), (4096, 8192), (70368744177664, 70368744177664)] 0 4096).1
      ⟨0, by decide, by norm_num [alignUp, alignDown, page_size], by decide⟩,
   (munmap_msync_madvise_reject_gap
      [(0, 0), (4096, 8192), (70368744177664, 70368744177664)] 0 4096).2
      ⟨0, by decide, by decide, by decide⟩⟩

/-! ## `mincore` (C10) -/

/-- `is_linear_mapped(addr, size)` from mmu.cc: inside the kernel ELF image
or at/above `phys_mem` (the linear map of physical memory); the three
boundary constants come from the linker and architecture headers and are
parameters here. -/
def is_linear_mapped (elfStart elfSize physMem addr size : Nat) : Bool :=
  (decide (elfStart ≤ addr) && decide (addr + size ≤ elfStart + elfSize))
    || decide (physMem ≤ addr)

/-- The byte vector `mincore` writes: one byte per 4K step from `addr` up to
`end`, `0x01` when `safe_load` succeeds on the page (the `readable` oracle
stands for the hardware probe), `0x00` otherwise. -/
def mincore_vec (readable : Nat → Bool) (addr endB : Nat) : List Nat :=
  (List.range ((endB - addr + page_size - 1) / page_size)).map
    fun i => if readable (addr + i * page_size) then 1 else 0

/-- `mincore(addr, length, vec)` from mmu.cc: `ENOMEM` (returning `none`,
with `vec` untouched) when the range is neither linear-mapped nor entirely
mapped by VMAs; otherwise the written vector, one byte per 4K page up to
`align_up(addr + length)`. -/
def mincoreF (elfStart elfSize physMem : Nat) (l : List (Nat × Nat))
    (readable : Nat → Bool) (addr len : Nat) : Option (List Nat) :=
  if !is_linear_mapped elfStart elfSize physMem addr len
      && !ismapped l addr len then none
  else some (mincore_vec readable addr (alignUp (addr + len) page_size))

/-- Claim C10: `mincore` returns `ENOMEM` without writing any byte of `vec`
whenever the queried range is neither linear-mapped nor entirely covered by
VMAs; and whenever it does produce a vector, the range is linear-mapped or
every byte of it is VMA-covered, and the vector holds one byte per 4K page —
`0x01` where `safe_load` succeeds, `0x00` elsewhere. -/
theorem mincore_rejects_gap_and_writes_per_page
    (elfStart elfSize physMem : Nat) (l : List (Nat × Nat))
    (readable : Nat → Bool) (addr len : Nat) :
    ((is_linear_mapped elfStart elfSize physMem addr len = false) →
      (∃ a, addr ≤ a ∧ a < addr + len ∧ vma_covers l a = false) →
      mincoreF elfStart elfSize physMem l readable addr len = none)
    ∧ (∀ vec, mincoreF elfStart elfSize physMem l readable addr len = some vec →
      (is_linear_mapped elfStart elfSize physMem addr len = true
        ∨ ∀ a, addr ≤ a → a < addr + len → vma_covers l a = true)
      ∧ vec = mincore_vec readable addr (alignUp (addr + len) page_size)) := by
  constructor
  · rintro hlin ⟨a, ha1, ha2, ha3⟩
    have hm : ismapped l addr len = false := by
      by_contra hc
      rw [Bool.not_eq_false] at hc
      have hcov := ismapped_covers l addr len hc a ha1 ha2
      rw [ha3] at hcov
      simp at hcov
    unfold mincoreF
    simp [hlin, hm]
  · intro vec hvec
    unfold mincoreF at hvec
    by_cases hguard : (!is_linear_mapped elfStart elfSize physMem addr len
        && !ismapped l addr len) = true
    · rw [if_pos hguard] at hvec
      exact absurd hvec (by simp)
    · rw [if_neg hguard] at hvec
      have hvec1 : vec = mincore_vec readable addr
          (alignUp (addr + len) page_size) := by
        exact (Option.some.injEq _ _ ▸ hvec).symm
      refine ⟨?_, hvec1⟩
      rw [Bool.and_eq_true, not_and_or] at hguard
      rcases hguard with h | h
      · left
        simpa using h
      · right
        have hm : ismapped l addr len = true := by
          simpa using h
        exact ismapped_covers l addr len hm

/-- Claim C10, witness: with the single VMA `[0, 0x2000)` fully covering the
queried range `[0, 100)` (and no linear map in sight), `mincore` writes the
one-page vector `[1]` under an always-readable probe; and querying the
unmapped range `[0x4000, 0x4064)` yields `ENOMEM` with nothing written. -/
theorem mincore_rejects_gap_and_writes_per_page_witness :
    (is_linear_mapped 1099511627776 0 1099511627776 0 100 = true
      ∨ ∀ a, 0 ≤ a → a < 0 + 100 → vma_covers [(0, 8192)] a = true)
      ∧ mincoreF 1099511627776 0 1099511627776 [(0, 8192)] (fun _ => true)
          16384 100 = none :=
  ⟨((mincore_rejects_gap_and_writes_per_page 1099511627776 0
      1099511627776 [(0, 8192)] (fun _ => true) 0 100).2 [1] (by decide)).1,
   (mincore_rejects_gap_and_writes_per_page 1099511627776 0 1099511627776
      [(0, 8192)] (fun _ => true) 16384 100).1 (by decide)
      ⟨16384, by decide, by decide, by decide⟩⟩

/-! ## `tlb_gather` batching in `unpopulate` (C9)

The observable events of one `unpopulate` walk over a VMA: clearing a leaf
PTE (`unmapped`), the global `flush_tlb_all()`, and handing a backing page to
the physical allocator (`freed`).  `tlb_gather` holds up to 20 unmapped pages
and its `flush()` first issues the global TLB flush, then frees the batch. -/

/-- One observable event of the unpopulate walk. -/
inductive TlbEvent where
  | unmapped (a : Nat)
  | flushTlb
  | freed (a : Nat)
deriving DecidableEq

/-- Default element for indexing traces. -/
def dummy_event : TlbEvent := TlbEvent.flushTlb

/-- `tlb_gather::max_pages`. -/
def tlb_max_pages : Nat := 20

/-- The events of `tlb_gather::flush()`: nothing on an empty batch, else
`flush_tlb_all()` followed by freeing every batched page, in order. -/
def flushEvents (buf : List Nat) : List TlbEvent :=
  if buf.isEmpty then [] else TlbEvent.flushTlb :: buf.map TlbEvent.freed

/-- `tlb_gather::push(addr, size)`: on a full batch, `flush()` first (which
flushes the TLB and frees those 20 pages), then append the new page; the new
batch state and the emitted events. -/
def tlb_gather_push (buf : List Nat) (a : Nat) : List Nat × List TlbEvent :=
  if buf.length = tlb_max_pages then ([a], flushEvents buf)
  else (buf ++ [a], [])

/-- One `unpopulate::page` call on a leaf PTE whose provider `unmap` returned
true: the PTE is cleared, then the page address is pushed into the
gather. -/
def unpop_step (st : List Nat × List TlbEvent) (a : Nat) :
    List Nat × List TlbEvent :=
  ((tlb_gather_push st.1 a).1,
    st.2 ++ TlbEvent.unmapped a :: (tlb_gather_push st.1 a).2)

/-- A whole `unpopulate` walk over the given pages: each page unmapped and
pushed in turn, and at `operate_range` exit `tlb_flush_needed()` runs
`_tlb_gather.flush()` on whatever is still batched. -/
def unpopulate_trace (pages : List Nat) : List TlbEvent :=
  ((pages.foldl unpop_step ([], [])).2)
    ++ flushEvents (pages.foldl unpop_step ([], [])).1

/-- The claim's temporal property over a trace: every `freed a` is preceded
by a `flush_tlb_all()` that itself comes after the `unmapped a` removing the
page from the page table. -/
def freed_after_flush (tr : List TlbEvent) : Prop :=
  ∀ j a, j < tr.length → tr.getD j dummy_event = TlbEvent.freed a →
    ∃ k, k < j ∧ tr.getD k dummy_event = TlbEvent.flushTlb ∧
      ∃ i, i < k ∧ tr.getD i dummy_event = TlbEvent.unmapped a

/-- Invariant carried over the walk: the trace so far is safe, and every page
still sitting in the gather batch was already unmapped in the trace. -/
def gather_inv (st : List Nat × List TlbEvent) : Prop :=
  freed_after_flush st.2
    ∧ ∀ b ∈ st.1, ∃ i, i < st.2.length
        ∧ st.2.getD i dummy_event = TlbEvent.unmapped b

/-- Appending an extension whose frees are justified (a flush earlier in the
extension, an unmap already in the base trace) preserves safety. -/
theorem freed_after_flush_append (tr ext : List TlbEvent)
    (h1 : freed_after_flush tr)
    (h2 : ∀ m x, m < ext.length → ext.getD m dummy_event = TlbEvent.freed x →
      (∃ k, k < m ∧ ext.getD k dummy_event = TlbEvent.flushTlb)
        ∧ (∃ i, i < tr.length ∧ tr.getD i dummy_event = TlbEvent.unmapped x)) :
    freed_after_flush (tr ++ ext) := by
  intro j x hj hx
  rw [List.length_append] at hj
  by_cases hc : j < tr.length
  · rw [List.getD_append _ _ _ _ hc] at hx
    obtain ⟨k, hk1, hk2, i, hi1, hi2⟩ := h1 j x hc hx
    exact ⟨k, hk1,
      by rw [List.getD_append _ _ _ _ (by omega)]; exact hk2,
      i, hi1, by rw [List.getD_append _ _ _ _ (by omega)]; exact hi2⟩
  · push_neg at hc
    rw [List.getD_append_right _ _ _ _ hc] at hx
    have hm : j - tr.length < ext.length := by omega
    obtain ⟨⟨k, hk1, hk2⟩, ⟨i, hi1, hi2⟩⟩ := h2 (j - tr.length) x hm hx
    refine ⟨tr.length + k, by omega, ?_, i, by omega, ?_⟩
    · rw [List.getD_append_right _ _ _ _ (by omega)]
      simpa [Nat.add_sub_cancel_left] using hk2
    · rw [List.getD_append _ _ _ _ hi1]
      exact hi2

/-- The events of flushing a batch whose pages were all unmapped in the
trace satisfy the justification condition of
`freed_after_flush_append`. -/
theorem flushEvents_justified (tr : List TlbEvent) (buf : List Nat)
    (hbuf : ∀ b ∈ buf, ∃ i, i < tr.length
      ∧ tr.getD i dummy_event = TlbEvent.unmapped b) :
    ∀ m x, m < (flushEvents buf).length →
      (flushEvents buf).getD m dummy_event = TlbEvent.freed x →
      (∃ k, k < m ∧ (flushEvents buf).getD k dummy_event = TlbEvent.flushTlb)
        ∧ (∃ i, i < tr.length
            ∧ tr.getD i dummy_event = TlbEvent.unmapped x) := by
  intro m x hm hx
  unfold flushEvents at hm hx ⊢
  by_cases he : buf.isEmpty
  · rw [if_pos he] at hm
    simp at hm
  · rw [if_neg he] at hm hx
    rw [if_neg he]
    match m with
    | 0 =>
        rw [List.getD_cons_zero] at hx
        exact absurd hx (by simp)
    | m + 1 =>
        rw [List.getD_cons_succ] at hx
        have hlen : m < buf.length := by
          simp only [List.length_cons, List.length_map] at hm
          omega
        rw [List.getD_eq_getElem _ _ (by simpa using hlen),
          List.getElem_map] at hx
        have hxb : buf[m] = x := TlbEvent.freed.inj hx
        refine ⟨⟨0, Nat.succ_pos m, List.getD_cons_zero⟩, ?_⟩
        rw [← hxb]
        exact hbuf buf[m] (List.getElem_mem hlen)

/-- One `unpopulate::page` step preserves the gather invariant. -/
theorem unpop_step_inv (st : List Nat × List TlbEvent) (a : Nat)
    (h : gather_inv st) : gather_inv (unpop_step st a) := by
  obtain ⟨h1, h2⟩ := h
  unfold unpop_step tlb_gather_push
  by_cases hfull : st.1.length = tlb_max_pages
  · rw [if_pos hfull]
    dsimp only
    constructor
    · apply freed_after_flush_append _ _ h1
      intro m x hm hx
      match m with
      | 0 =>
          rw [List.getD_cons_zero] at hx
          exact absurd hx (by simp)
      | m + 1 =>
          rw [List.getD_cons_succ] at hx
          have hm1 : m < (flushEvents st.1).length := by
            rw [List.length_cons] at hm
            omega
          obtain ⟨⟨k, hk1, hk2⟩, hi⟩ :=
            flushEvents_justified st.2 st.1 h2 m x hm1 hx
          exact ⟨⟨k + 1, by omega,
            by rw [List.getD_cons_succ]; exact hk2⟩, hi⟩
    · intro b hb
      rw [List.mem_singleton] at hb
      subst hb
      refine ⟨st.2.length, ?_, ?_⟩
      · simp
      · rw [List.getD_append_right _ _ _ _ (le_refl _), Nat.sub_self,
          List.getD_cons_zero]
  · rw [if_neg hfull]
    dsimp only
    constructor
    · apply freed_after_flush_append _ _ h1
      intro m x hm hx
      match m with
      | 0 =>
          rw [List.getD_cons_zero] at hx
          exact absurd hx (by simp)
      | m + 1 =>
          simp at hm
    · intro b hb
      rw [List.mem_append, List.mem_singleton] at hb
      rcases hb with hb | hb
      · obtain ⟨i, hi1, hi2⟩ := h2 b hb
        refine ⟨i, ?_, ?_⟩
        · rw [List.length_append]; omega
        · rw [List.getD_append _ _ _ _ hi1]; exact hi2
      · subst hb
        refine ⟨st.2.length, ?_, ?_⟩
        · simp
        · rw [List.getD_append_right _ _ _ _ (le_refl _), Nat.sub_self,
            List.getD_cons_zero]

/-- Folding the walk over any page list preserves the invariant. -/
theorem foldl_unpop_inv (pages : List Nat) :
    ∀ st, gather_inv st → gather_inv (pages.foldl unpop_step st) := by
  induction pages with
  | nil => intro st h; exact h
  | cons p rest ih =>
      intro st h
      exact ih (unpop_step st p) (unpop_step_inv st p h)

/-- Claim C9: during `unpopulate`, a backing page removed from the page
table is never freed before a global TLB flush has been issued — in the
event trace of any walk, every `freed a` (all frees happen inside
`tlb_gather::flush()`) is strictly preceded by a `flush_tlb_all()` that
itself comes after the `unmapped a` clearing the PTE, including the pages
still batched when the walker exits, which the final
`tlb_flush_needed()`-driven `flush()` handles. -/
theorem unpopulate_trace_freed_after_flush (pages : List Nat) :
    freed_after_flush (unpopulate_trace pages) := by
  unfold unpopulate_trace
  have h := foldl_unpop_inv pages ([], [])
    ⟨by intro j a hj hx; simp at hj, by intro b hb; simp at hb⟩
  exact freed_after_flush_append _ _ h.1
    (flushEvents_justified _ _ h.2)

/-- Claim C9, witness: walking a single page 5 produces the trace
`[unmapped 5, flushTlb, freed 5]`, and the free at position 2 is justified by
the flush at position 1 after the unmap at position 0. -/
theorem unpopulate_trace_freed_after_flush_witness :
    (unpopulate_trace [5]).getD 2 dummy_event = TlbEvent.freed 5
      ∧ ∃ k, k < 2 ∧ (unpopulate_trace [5]).getD k dummy_event
          = TlbEvent.flushTlb
        ∧ ∃ i, i < k ∧ (unpopulate_trace [5]).getD i dummy_event
            = TlbEvent.unmapped 5 :=
  ⟨by decide,
   unpopulate_trace_freed_after_flush [5] 2 5 (by decide) (by decide)⟩

end OsvMmu
